import Mathlib

/-!
Verification of the QA-generation-with-human-review pipeline.

The pipeline splits a text document into overlapping chunks with position
tracking (`chunk_text_with_positions`), locates generated answers inside
their chunk (`find_answer_location`), attaches references to generated QA
pairs (`generate_qa_pairs_with_refs`), merges a Label Studio review export
back onto the original pairs (`process_labelstudio_export`) and filters the
merged pairs by quality (`filter_qa_by_quality`).

Python strings are modelled as lists of Unicode code points (`List Nat`);
Python `str.lower` is modelled by its ASCII case mapping, which is all the
involved labels and probes exercise.  The `while` loop of the chunker is
modelled with explicit fuel, so that its non-termination on invalid
configurations is observable as fuel exhaustion at every fuel value.
-/

namespace QAGen

/-- Python strings as lists of Unicode code points. -/
abbrev PyStr := List Nat

/-- Embed a Lean string literal into the code-point model. -/
def pyStr (s : String) : PyStr := s.toList.map Char.toNat

/-- Python `s.count('\n')`: number of newline (code point 10) characters. -/
def countNl (s : PyStr) : Nat := s.count 10

/-- Python slice `s[a:b]` for `0 ≤ a ≤ b` (the only shapes the chunker uses). -/
def pySlice (s : PyStr) (a b : Nat) : PyStr := (s.drop a).take (b - a)

/-- Python truthiness of an optional string: `None` and `""` are falsy. -/
def truthyStr (s : Option PyStr) : Option PyStr :=
  match s with
  | none => none
  | some l => if l = [] then none else some l

/-- The `preview` field: `chunk_text[:100].replace('\n', ' ') + '...'`
(code point 46 is `'.'`, 32 is `' '`). -/
def mkPreview (chunkText : PyStr) : PyStr :=
  (chunkText.take 100).map (fun c => if c = 10 then 32 else c) ++ [46, 46, 46]

/-- A chunk record as built by `chunk_text_with_positions`
(src/generate_qa.py lines 44-55). -/
structure Chunk where
  id : Nat
  text : PyStr
  char_start : Nat
  char_end : Nat
  line_start : Nat
  line_end : Nat
  preview : PyStr
  source_document : Option PyStr
deriving Repr, DecidableEq

/-- One iteration's chunk record: the body of the `while` loop at
src/generate_qa.py lines 36-59, for cursor `start` and counter `chunkId`. -/
def mkChunk (text : PyStr) (chunk_size : Nat) (sd : Option PyStr)
    (start chunkId : Nat) : Chunk :=
  let e := min (start + chunk_size) text.length
  let ct := pySlice text start e
  { id := chunkId
    text := ct
    char_start := start
    char_end := e
    line_start := countNl (text.take start) + 1
    line_end := countNl (text.take start) + countNl ct + 1
    preview := mkPreview ct
    source_document := truthyStr sd }

/-- The cursor update `start = end - overlap if end < len(text) else end`
(src/generate_qa.py line 60). -/
def nextStart (text : PyStr) (chunk_size overlap start : Nat) : Nat :=
  let e := min (start + chunk_size) text.length
  if e < text.length then e - overlap else e

/-- Fuel-indexed model of the `while start < len(text)` loop of
`chunk_text_with_positions` (src/generate_qa.py lines 36-60).  `none` means
the loop did not finish within `fuel` iterations; the real loop has no other
way to stop, so a result that is `none` at every fuel value is an infinite
loop. -/
def chunkFuel (text : PyStr) (chunk_size overlap : Nat) (sd : Option PyStr) :
    Nat → Nat → Nat → Option (List Chunk)
  | 0, _, _ => none
  | fuel + 1, start, chunkId =>
    if start < text.length then
      (chunkFuel text chunk_size overlap sd fuel
          (nextStart text chunk_size overlap start) (chunkId + 1)).map
        (fun rest => mkChunk text chunk_size sd start chunkId :: rest)
    else some []

/-- Model of `chunk_text_with_positions(text, chunk_size, overlap,
source_document)` (src/generate_qa.py lines 26-62), with the config-default for `chunk_size`
supplied by the caller.  `text.length + 1` iterations always suffice for a
valid configuration (each iteration advances the cursor by at least one),
so `none` here means the loop failed to terminate in that budget. -/
def chunk_text_with_positions (text : PyStr) (chunk_size overlap : Nat)
    (sd : Option PyStr) : Option (List Chunk) :=
  chunkFuel text chunk_size overlap sd (text.length + 1) 0 0

/-! ### Structural lemmas about the chunker loop -/

theorem chunkFuel_terminates (text : PyStr) (cs ov : Nat) (sd : Option PyStr)
    (hov : ov < cs) :
    ∀ fuel start chunkId, text.length - start < fuel →
      ∃ l, chunkFuel text cs ov sd fuel start chunkId = some l := by
  intro fuel
  induction fuel with
  | zero => intro start chunkId h; omega
  | succ fuel ih =>
    intro start chunkId h
    by_cases hs : start < text.length
    · have hnext : text.length - nextStart text cs ov start < fuel := by
        unfold nextStart
        by_cases he : min (start + cs) text.length < text.length
        · rw [if_pos he]; omega
        · rw [if_neg he]; omega
      obtain ⟨l, hl⟩ := ih (nextStart text cs ov start) (chunkId + 1) hnext
      exact ⟨mkChunk text cs sd start chunkId :: l, by rw [chunkFuel, if_pos hs, hl]; rfl⟩
    · exact ⟨[], by rw [chunkFuel, if_neg hs]⟩

theorem chunkFuel_stop (text : PyStr) (cs ov : Nat) (sd : Option PyStr)
    (fuel start chunkId : Nat) (hf : 0 < fuel) (hs : text.length ≤ start) :
    chunkFuel text cs ov sd fuel start chunkId = some [] := by
  cases fuel with
  | zero => omega
  | succ fuel => rw [chunkFuel, if_neg (by omega)]

theorem chunkFuel_shape (text : PyStr) (cs ov : Nat) (sd : Option PyStr)
    (fuel start chunkId : Nat) (l : List Chunk)
    (h : chunkFuel text cs ov sd fuel start chunkId = some l) :
    (l = [] ↔ text.length ≤ start) ∧
      ∀ c l', l = c :: l' → c = mkChunk text cs sd start chunkId ∧
        chunkFuel text cs ov sd (fuel - 1) (nextStart text cs ov start) (chunkId + 1) =
          some l' := by
  cases fuel with
  | zero => simp [chunkFuel] at h
  | succ fuel =>
    rw [chunkFuel] at h
    by_cases hs : start < text.length
    · rw [if_pos hs] at h
      obtain ⟨rest, hrest, hcons⟩ := Option.map_eq_some'.mp h
      subst hcons
      refine ⟨by simp; omega, ?_⟩
      intro c l' hcl
      rw [List.cons.injEq] at hcl
      exact ⟨hcl.1.symm, by rw [Nat.succ_sub_one, ← hcl.2]; exact hrest⟩
    · rw [if_neg hs] at h
      obtain rfl := (Option.some.injEq _ _).mp h.symm
      exact ⟨by simp; omega, by intro c l' hcl; simp at hcl⟩

theorem chunkFuel_mem (text : PyStr) (cs ov : Nat) (sd : Option PyStr) :
    ∀ fuel start chunkId l,
      chunkFuel text cs ov sd fuel start chunkId = some l →
      ∀ c ∈ l, c.char_start < text.length ∧
        c.char_end = min (c.char_start + cs) text.length ∧
        c.text = pySlice text c.char_start c.char_end ∧
        c.line_start = countNl (text.take c.char_start) + 1 ∧
        c.line_end = c.line_start + countNl c.text := by
  intro fuel
  induction fuel with
  | zero => intro start chunkId l h; simp [chunkFuel] at h
  | succ fuel ih =>
    intro start chunkId l h c hc
    rw [chunkFuel] at h
    by_cases hs : start < text.length
    · rw [if_pos hs] at h
      obtain ⟨rest, hrest, hcons⟩ := Option.map_eq_some'.mp h
      subst hcons
      rcases List.mem_cons.mp hc with rfl | hmem
      · refine ⟨hs, rfl, rfl, rfl, ?_⟩
        simp only [mkChunk]
        omega
      · exact ih _ _ _ hrest c hmem
    · rw [if_neg hs] at h
      obtain rfl := (Option.some.injEq _ _).mp h.symm
      simp at hc

theorem chunkFuel_chain (text : PyStr) (cs ov : Nat) (sd : Option PyStr) :
    ∀ fuel start chunkId l,
      chunkFuel text cs ov sd fuel start chunkId = some l →
      l.Chain' (fun a b => a.char_end < text.length ∧ b.char_start = a.char_end - ov) := by
  intro fuel
  induction fuel with
  | zero => intro start chunkId l h; simp [chunkFuel] at h
  | succ fuel ih =>
    intro start chunkId l h
    rw [chunkFuel] at h
    by_cases hs : start < text.length
    · rw [if_pos hs] at h
      obtain ⟨rest, hrest, hcons⟩ := Option.map_eq_some'.mp h
      subst hcons
      cases rest with
      | nil => exact List.chain'_singleton _
      | cons b rest' =>
        have hshape := chunkFuel_shape text cs ov sd fuel _ _ _ hrest
        have hb := (hshape.2 b rest' rfl).1
        have hlt : nextStart text cs ov start < text.length := by
          by_contra hge
          have : b :: rest' = [] := hshape.1.mpr (by omega)
          simp at this
        refine List.chain'_cons.mpr ⟨?_, ih _ _ _ hrest⟩
        have he : min (start + cs) text.length < text.length := by
          by_contra hge
          have h1 : min (start + cs) text.length ≤ text.length := Nat.min_le_right _ _
          have : nextStart text cs ov start = text.length := by
            unfold nextStart; rw [if_neg hge]; omega
          omega
        constructor
        · exact he
        · rw [hb]
          show nextStart text cs ov start = min (start + cs) text.length - ov
          unfold nextStart
          rw [if_pos he]
    · rw [if_neg hs] at h
      obtain rfl := (Option.some.injEq _ _).mp h.symm
      exact List.chain'_nil

theorem chunkFuel_last (text : PyStr) (cs ov : Nat) (sd : Option PyStr) :
    ∀ fuel start chunkId l c,
      chunkFuel text cs ov sd fuel start chunkId = some l →
      l.getLast? = some c → c.char_end = text.length := by
  intro fuel
  induction fuel with
  | zero => intro start chunkId l c h; simp [chunkFuel] at h
  | succ fuel ih =>
    intro start chunkId l c h hlast
    rw [chunkFuel] at h
    by_cases hs : start < text.length
    · rw [if_pos hs] at h
      obtain ⟨rest, hrest, hcons⟩ := Option.map_eq_some'.mp h
      subst hcons
      cases rest with
      | nil =>
        simp only [List.getLast?_singleton, Option.some.injEq] at hlast
        subst hlast
        have hstop : text.length ≤ nextStart text cs ov start :=
          (chunkFuel_shape text cs ov sd fuel _ _ _ hrest).1.mp rfl
        have he : ¬ min (start + cs) text.length < text.length := by
          intro hlt
          have : nextStart text cs ov start = min (start + cs) text.length - ov := by
            unfold nextStart; rw [if_pos hlt]
          omega
        have hmin : min (start + cs) text.length ≤ text.length := Nat.min_le_right _ _
        show min (start + cs) text.length = text.length
        omega
      | cons b rest' =>
        rw [List.getLast?_cons_cons] at hlast
        exact ih _ _ _ _ hrest hlast
    · rw [if_neg hs] at h
      obtain rfl := (Option.some.injEq _ _).mp h.symm
      simp at hlast

/-! ### The Reference Locator (`find_answer_location`) -/

/-- Whitespace as recognized by Python `str.split()` on the documents at
hand: space, tab, carriage return, newline. -/
def isWs (c : Nat) : Bool := c = 32 || c = 9 || c = 13 || c = 10

/-- Python `str.lower()` restricted to its ASCII case mapping. -/
def asciiLower (c : Nat) : Nat := if 65 ≤ c ∧ c ≤ 90 then c + 32 else c

/-- Helper for `str.split()`: cut a string at whitespace, keeping (possibly
empty) token fragments. -/
def splitAux : PyStr → List PyStr
  | [] => []
  | c :: t =>
    if isWs c then [] :: splitAux t
    else
      match splitAux t with
      | [] => [[c]]
      | u :: us => (c :: u) :: us

/-- Python `s.split()` with no separator: split on whitespace runs and drop
empty tokens. -/
def pySplitWs (s : PyStr) : List PyStr := (splitAux s).filter (fun t => t ≠ [])

/-- Boolean string-prefix test, used by the substring search. -/
def isPrefixList : PyStr → PyStr → Bool
  | [], _ => true
  | _ :: _, [] => false
  | a :: as, b :: bs => (a == b) && isPrefixList as bs

/-- Soundness of the boolean prefix test. -/
theorem isPrefixList_iff : ∀ n h : PyStr, isPrefixList n h = true ↔ n <+: h := by
  intro n
  induction n with
  | nil => intro h; simp [isPrefixList]
  | cons a as ih =>
    intro h
    cases h with
    | nil => simp [isPrefixList]
    | cons b bs =>
      rw [isPrefixList]
      simp [List.cons_prefix_cons, ih bs]

/-- Substring search: first index at which `needle` occurs in the remaining
haystack, offset by `i`. -/
def strFindAux (needle : PyStr) : PyStr → Nat → Option Nat
  | [], i => if isPrefixList needle [] then some i else none
  | c :: t, i => if isPrefixList needle (c :: t) then some i else strFindAux needle t (i + 1)

/-- Python `hay.find(needle)`: index of the first occurrence, `none` for -1. -/
def strFind (hay needle : PyStr) : Option Nat := strFindAux needle hay 0

/-- `find_answer_location(answer, chunk_text)` (src/generate_qa.py lines
64-79): probe with the first five words of the lower-cased answer joined by
single spaces, search the lower-cased chunk, and count newlines before the
match; `none` models the Python `None` ("not found"). -/
def find_answer_location (answer chunk_text : PyStr) : Option Nat :=
  let answer_words := (pySplitWs (answer.map asciiLower)).take 5
  let search_text := List.intercalate [32] answer_words
  let chunk_lower := chunk_text.map asciiLower
  match strFind chunk_lower search_text with
  | some pos => some (countNl (chunk_text.take pos))
  | none => none

/-- The probe string exactly as the specification words it: the first five
whitespace-separated tokens of the answer, each lower-cased, joined with
single spaces. -/
def probeSpec (answer : PyStr) : PyStr :=
  List.intercalate [32] (((pySplitWs answer).take 5).map (List.map asciiLower))

/-- Lower-casing never creates or destroys whitespace. -/
theorem isWs_asciiLower (c : Nat) : isWs (asciiLower c) = isWs c := by
  unfold asciiLower
  by_cases h : 65 ≤ c ∧ c ≤ 90
  · rw [if_pos h]
    have h1 : isWs (c + 32) = false := by
      unfold isWs
      simp only [Bool.or_eq_false_iff, decide_eq_false_iff_not]
      omega
    have h2 : isWs c = false := by
      unfold isWs
      simp only [Bool.or_eq_false_iff, decide_eq_false_iff_not]
      omega
    rw [h1, h2]
  · rw [if_neg h]

/-- Token cutting commutes with lower-casing. -/
theorem splitAux_map_asciiLower (s : PyStr) :
    splitAux (s.map asciiLower) = (splitAux s).map (List.map asciiLower) := by
  induction s with
  | nil => rfl
  | cons c t ih =>
    rw [List.map_cons, splitAux, splitAux, ih, isWs_asciiLower]
    cases h : isWs c with
    | true => simp
    | false =>
      simp only [Bool.false_eq_true, if_false]
      cases h' : splitAux t with
      | nil => rfl
      | cons u us => rfl

/-- Splitting commutes with lower-casing the string. -/
theorem pySplitWs_map_asciiLower (s : PyStr) :
    pySplitWs (s.map asciiLower) = (pySplitWs s).map (List.map asciiLower) := by
  unfold pySplitWs
  rw [splitAux_map_asciiLower, List.filter_map]
  congr 1
  apply List.filter_congr
  intro t _
  cases t with
  | nil => rfl
  | cons c u => rfl

/-- The probe the code builds (split the lower-cased answer) is the probe the
specification describes (lower-case the split answer). -/
theorem probe_eq_probeSpec (answer : PyStr) :
    List.intercalate [32] ((pySplitWs (answer.map asciiLower)).take 5) =
      probeSpec answer := by
  unfold probeSpec
  rw [pySplitWs_map_asciiLower, ← List.map_take]

/-- Found positions of `strFindAux` are first occurrences at or after the
running index. -/
theorem strFindAux_spec (needle : PyStr) :
    ∀ hay i p, strFindAux needle hay i = some p →
      i ≤ p ∧ needle <+: hay.drop (p - i) ∧
        ∀ q, q < p - i → ¬ needle <+: hay.drop q := by
  intro hay
  induction hay with
  | nil =>
    intro i p h
    rw [strFindAux] at h
    by_cases hp : isPrefixList needle ([] : PyStr) = true
    · rw [if_pos hp] at h
      obtain rfl := (Option.some.injEq _ _).mp h
      exact ⟨le_rfl, by simpa using (isPrefixList_iff _ _).mp hp, by omega⟩
    · rw [if_neg hp] at h
      exact absurd h (by simp)
  | cons c t ih =>
    intro i p h
    rw [strFindAux] at h
    by_cases hp : isPrefixList needle (c :: t) = true
    · rw [if_pos hp] at h
      obtain rfl := (Option.some.injEq _ _).mp h
      exact ⟨le_rfl, by simpa using (isPrefixList_iff _ _).mp hp, by omega⟩
    · rw [if_neg hp] at h
      obtain ⟨hle, hpre, hmin⟩ := ih (i + 1) p h
      refine ⟨by omega, ?_, ?_⟩
      · have : p - i = (p - (i + 1)) + 1 := by omega
        rw [this, List.drop_succ_cons]
        exact hpre
      · intro q hq
        cases q with
        | zero =>
          rw [List.drop_zero]
          exact fun hcon => hp ((isPrefixList_iff _ _).mpr hcon)
        | succ q' =>
          rw [List.drop_succ_cons]
          exact hmin q' (by omega)

/-- A `none` result of `strFindAux` means there is no occurrence at all. -/
theorem strFindAux_none (needle : PyStr) :
    ∀ hay i, strFindAux needle hay i = none →
      ∀ q, ¬ needle <+: hay.drop q := by
  intro hay
  induction hay with
  | nil =>
    intro i h q
    rw [strFindAux] at h
    by_cases hp : isPrefixList needle ([] : PyStr) = true
    · rw [if_pos hp] at h; exact absurd h (by simp)
    · simpa using fun hcon => hp ((isPrefixList_iff _ _).mpr hcon)
  | cons c t ih =>
    intro i h q
    rw [strFindAux] at h
    by_cases hp : isPrefixList needle (c :: t) = true
    · rw [if_pos hp] at h; exact absurd h (by simp)
    · rw [if_neg hp] at h
      cases q with
      | zero =>
        rw [List.drop_zero]
        exact fun hcon => hp ((isPrefixList_iff _ _).mpr hcon)
      | succ q' =>
        rw [List.drop_succ_cons]
        exact ih (i + 1) h q'

/-- An all-whitespace string splits into no tokens. -/
theorem pySplitWs_all_ws (s : PyStr) (h : ∀ c ∈ s, isWs c = true) :
    pySplitWs s = [] := by
  induction s with
  | nil => rfl
  | cons c t ih =>
    have hc : isWs c = true := h c (List.mem_cons_self c t)
    unfold pySplitWs splitAux
    rw [hc, if_pos rfl]
    have := ih (fun d hd => h d (List.mem_cons_of_mem c hd))
    unfold pySplitWs at this
    simpa using this

/-- The empty probe is found at offset 0 in every string. -/
theorem strFind_nil (hay : PyStr) : strFind hay [] = some 0 := by
  cases hay with
  | nil => rfl
  | cons c t => rfl

/-! ### QA generation with references (`generate_qa_pairs_with_refs`) -/

/-- Python `sub in s`. -/
def pyContains (s sub : PyStr) : Bool := (strFind s sub).isSome

/-- Fuel-driven model of Python `s.split(sep)` for a non-empty separator. -/
def pySplitSepFuel (sep : PyStr) : Nat → PyStr → List PyStr
  | 0, s => [s]
  | fuel + 1, s =>
    match strFind s sep with
    | none => [s]
    | some i => s.take i :: pySplitSepFuel sep fuel (s.drop (i + sep.length))

/-- Python `s.split(sep)`: `s.length + 1` rounds always suffice because each
round consumes at least one character of a non-empty separator match. -/
def pySplitSep (s sep : PyStr) : List PyStr := pySplitSepFuel sep (s.length + 1) s

/-- Python `s.strip()` on the whitespace the pipeline uses. -/
def pyStrip (s : PyStr) : PyStr :=
  ((s.dropWhile (fun c => isWs c)).reverse.dropWhile (fun c => isWs c)).reverse

/-- The code-fence markers stripped from the model response. -/
def fenceJson : PyStr := pyStr "```json"

/-- The bare code-fence marker. -/
def fenceBare : PyStr := pyStr "```"

/-- The markdown-code-fence stripping of the response `content`
(src/generate_qa.py lines 126-130). -/
def stripFences (content : PyStr) : PyStr :=
  if pyContains content fenceJson then
    pyStrip ((pySplitSep ((pySplitSep content fenceJson).getD 1 []) fenceBare).headD [])
  else if pyContains content fenceBare then
    pyStrip ((pySplitSep ((pySplitSep content fenceBare).getD 1 []) fenceBare).headD [])
  else content

/-- A `{question, answer}` object from the parsed model response. -/
structure RawQA where
  question : PyStr
  answer : PyStr
deriving Repr, DecidableEq

/-- The `reference` record attached to each generated QA pair
(src/generate_qa.py lines 137-151).  The two `Option` fields model the keys
that are written only when the locator succeeds. -/
structure Reference where
  chunk_id : Nat
  char_start : Nat
  char_end : Nat
  line_start : Nat
  line_end : Nat
  chunk_preview : PyStr
  source_document : PyStr
  answer_line_in_chunk : Option Nat
  answer_line_in_doc : Option Nat
deriving Repr, DecidableEq

/-- A QA pair with its reference, as emitted by `generate_qa_pairs_with_refs`. -/
structure QAPairOut where
  question : PyStr
  answer : PyStr
  reference : Reference
deriving Repr, DecidableEq

/-- The per-pair reference decoration loop body (src/generate_qa.py lines
136-151). -/
def attachReference (chunk : Chunk) (qa : RawQA) : QAPairOut :=
  let answer_line := find_answer_location qa.answer chunk.text
  { question := qa.question
    answer := qa.answer
    reference :=
      { chunk_id := chunk.id
        char_start := chunk.char_start
        char_end := chunk.char_end
        line_start := chunk.line_start
        line_end := chunk.line_end
        chunk_preview := chunk.preview
        source_document := chunk.source_document.getD []
        answer_line_in_chunk := answer_line
        answer_line_in_doc := answer_line.map (fun loc => chunk.line_start + loc) } }

/-- Model of `generate_qa_pairs_with_refs(chunk_data, num_pairs)`
(src/generate_qa.py lines 81-157).  The language-model call is the external collaborator: its
outcome for this chunk is `response` (`.error` models a raised exception,
`.ok content` the returned text).  `json.loads` plus the list-of-dicts shape
check is the external `jsonParse`; `none` models any parse failure.  The
Python `try/except` catches every failure and returns `[]`. -/
def generate_qa_pairs_with_refs (chunk : Chunk) (response : Except Unit PyStr)
    (jsonParse : PyStr → Option (List RawQA)) : List QAPairOut :=
  match response with
  | .error _ => []
  | .ok content =>
    match jsonParse (stripFences content) with
    | none => []
    | some qa_pairs => qa_pairs.map (attachReference chunk)

/-- The chunk loop of `main` (src/generate_qa.py lines 235-239): each chunk's
pairs are generated and appended in order; `responses` lists the
collaborator's outcome per chunk. -/
def runBatch (chunks : List Chunk) (responses : List (Except Unit PyStr))
    (jsonParse : PyStr → Option (List RawQA)) : List QAPairOut :=
  ((chunks.zip responses).map
    (fun p => generate_qa_pairs_with_refs p.1 p.2 jsonParse)).flatten

end QAGen

namespace QAGen

/-! ### Label Studio review processing (`process_labelstudio_results.py`) -/

/-- Python list indexing `l[i]` with an `int` index: non-negative indices
from the front, negative indices from the back, `IndexError` otherwise. -/
def pyListGet {α : Type} (l : List α) (i : Int) : Except Unit α :=
  let j : Int := if i < 0 then (l.length : Int) + i else i
  if h : 0 ≤ j ∧ j.toNat < l.length then .ok (l.get ⟨j.toNat, h.2⟩)
  else .error ()

/-- One entry of an annotation's `result` array: `from_name` together with
`value.choices` and `value.text`. -/
structure ResultItem where
  from_name : PyStr
  choices : List PyStr
  text : List PyStr
deriving Repr, DecidableEq

/-- One annotation of a Label Studio task. -/
structure AnnotationRec where
  result : List ResultItem
  completed_by : Option PyStr
  created_at : Option PyStr
deriving Repr, DecidableEq

/-- One record of the Label Studio JSON export (`id` is `None` when the key
is absent; `int(item.get('id', 0))` then yields 0). -/
structure LSItem where
  id : Option Int
  annotations : List AnnotationRec
deriving Repr, DecidableEq

/-- The `review_data` dict (src/process_labelstudio_results.py lines 76-82);
`none` models Python `None`. -/
structure ReviewData where
  accuracy : Option PyStr
  relevance : Option PyStr
  quality : Option PyStr
  issues : List PyStr
  notes : Option PyStr
deriving Repr, DecidableEq

/-- The initial `review_data` with every field `None` and no issues. -/
def initReview : ReviewData :=
  { accuracy := none, relevance := none, quality := none, issues := [], notes := none }

/-- The `for r in result` extraction loop (src/process_labelstudio_results.py
lines 84-94).  `r['value']['choices'][0]` raises `IndexError` on an empty
`choices` list, which aborts the whole run. -/
def extractReview : List ResultItem → ReviewData → Except Unit ReviewData
  | [], acc => .ok acc
  | r :: rest, acc =>
    if r.from_name = pyStr "accuracy" then
      match r.choices with
      | [] => .error ()
      | c :: _ => extractReview rest { acc with accuracy := some c }
    else if r.from_name = pyStr "relevance" then
      match r.choices with
      | [] => .error ()
      | c :: _ => extractReview rest { acc with relevance := some c }
    else if r.from_name = pyStr "quality" then
      match r.choices with
      | [] => .error ()
      | c :: _ => extractReview rest { acc with quality := some c }
    else if r.from_name = pyStr "issues" then
      extractReview rest { acc with issues := r.choices }
    else if r.from_name = pyStr "notes" then
      extractReview rest
        { acc with notes := match r.text with | [] => none | t :: _ => some t }
    else extractReview rest acc

/-- An original QA pair (of arbitrary JSON shape `α`, which the merge never
inspects) with the review fields added (src/process_labelstudio_results.py
lines 106-109). -/
structure ProcessedQA (α : Type) where
  base : α
  review : ReviewData
  reviewer_id : PyStr
  review_date : PyStr
deriving Repr, DecidableEq

/-- The per-review counters of `stats`; each `Counter` is modelled as the
list of labels it was incremented with (`completed` is the count of items
that reached the statistics block). -/
structure Stats where
  completed : Nat
  accuracy : List (Option PyStr)
  relevance : List (Option PyStr)
  quality : List (Option PyStr)
  issues : List PyStr
deriving Repr, DecidableEq

/-- The empty statistics record. -/
def initStats : Stats :=
  { completed := 0, accuracy := [], relevance := [], quality := [], issues := [] }

/-- The statistics update (src/process_labelstudio_results.py lines 96-102). -/
def bumpStats (st : Stats) (rd : ReviewData) : Stats :=
  { completed := st.completed + 1
    accuracy := st.accuracy ++ [rd.accuracy]
    relevance := st.relevance ++ [rd.relevance]
    quality := st.quality ++ [rd.quality]
    issues := st.issues ++ rd.issues }

/-- The body of `for item in reviewed_data` (src/process_labelstudio_results.py
lines 59-110), acting on the accumulated `(processed_qa, stats)`. -/
def processItem {α : Type} (original_qa : List α)
    (acc : List (ProcessedQA α) × Stats) (item : LSItem) :
    Except Unit (List (ProcessedQA α) × Stats) :=
  let qa_id : Int := item.id.getD 0 - 1
  match item.annotations.getLast? with
  | none => .ok acc
  | some ann =>
    match extractReview ann.result initReview with
    | .error e => .error e
    | .ok review_data =>
      let st := bumpStats acc.2 review_data
      if qa_id < (original_qa.length : Int) then
        match pyListGet original_qa qa_id with
        | .error e => .error e
        | .ok base =>
          .ok (acc.1 ++
            [{ base := base
               review := review_data
               reviewer_id := ann.completed_by.getD (pyStr "unknown")
               review_date := ann.created_at.getD [] }], st)
      else .ok (acc.1, st)

/-- The merge loop of `process_labelstudio_export` (src/
process_labelstudio_results.py lines 49-112), after the file/JSON boundary
checks; returns the merged pairs and statistics, or the uncaught exception. -/
def process_labelstudio_export {α : Type} (reviewed_data : List LSItem)
    (original_qa : List α) : Except Unit (List (ProcessedQA α) × Stats) :=
  reviewed_data.foldlM (processItem original_qa) ([], initStats)

/-! ### Quality filter (`filter_qa_by_quality`) -/

/-- The review labels the filter reads.  The outer `Option` distinguishes an
absent dict key from a present one; the inner `Option` distinguishes Python
`None` from a string value. -/
structure ReviewInfo where
  quality : Option (Option PyStr)
  accuracy : Option (Option PyStr)
deriving Repr, DecidableEq

/-- An item of the list passed to `filter_qa_by_quality`: an arbitrary
payload plus the optional `review` dict. -/
structure ReviewedQA (α : Type) where
  payload : α
  review : Option ReviewInfo
deriving Repr, DecidableEq

/-- `quality_levels.get(q, default)` for the fixed dict at src/
process_labelstudio_results.py lines 117-122. -/
def qualityLevelsGet (q : PyStr) (dflt : Nat) : Nat :=
  if q = pyStr "Excellent" then 4
  else if q = pyStr "Good" then 3
  else if q = pyStr "Fair" then 2
  else if q = pyStr "Poor" then 1
  else dflt

/-- Reading `review.get('quality', 'Fair')`: the default applies only when the key
is absent (src/process_labelstudio_results.py line 131). -/
def effQuality (review : Option ReviewInfo) : Option PyStr :=
  match review with
  | none => some (pyStr "Fair")
  | some info =>
    match info.quality with
    | none => some (pyStr "Fair")
    | some v => v

/-- Reading `review.get('accuracy', 'Partially Accurate')` (line 132). -/
def effAccuracy (review : Option ReviewInfo) : Option PyStr :=
  match review with
  | none => some (pyStr "Partially Accurate")
  | some info =>
    match info.accuracy with
    | none => some (pyStr "Partially Accurate")
    | some v => v

/-- The acceptance condition (src/process_labelstudio_results.py lines
134-136): `quality_levels.get(quality, 0) >= min_level and accuracy in
['Accurate', 'Partially Accurate']`; `quality_levels.get(None, 0)` is 0. -/
def acceptQA {α : Type} (min_quality : PyStr) (qa : ReviewedQA α) : Bool :=
  let min_level := qualityLevelsGet min_quality 3
  let quality := effQuality qa.review
  let accuracy := effAccuracy qa.review
  (decide ((match quality with | none => 0 | some q => qualityLevelsGet q 0) ≥ min_level)) &&
    (accuracy = some (pyStr "Accurate") || accuracy = some (pyStr "Partially Accurate"))

/-- Model of `filter_qa_by_quality(processed_qa, min_quality)` (src/
process_labelstudio_results.py lines 114-141): route every item into the
accepted or the rejected list, preserving order. -/
def filter_qa_by_quality {α : Type} (processed_qa : List (ReviewedQA α))
    (min_quality : PyStr) : List (ReviewedQA α) × List (ReviewedQA α) :=
  processed_qa.foldl
    (fun acc qa =>
      if acceptQA min_quality qa then (acc.1 ++ [qa], acc.2)
      else (acc.1, acc.2 ++ [qa]))
    ([], [])

/-- The two output lists of the filter are the two filters of the input. -/
theorem filter_qa_by_quality_eq {α : Type} (processed_qa : List (ReviewedQA α))
    (min_quality : PyStr) :
    filter_qa_by_quality processed_qa min_quality =
      (processed_qa.filter (acceptQA min_quality),
        processed_qa.filter (fun qa => ! acceptQA min_quality qa)) := by
  unfold filter_qa_by_quality
  suffices h : ∀ (l : List (ReviewedQA α)) (a b : List (ReviewedQA α)),
      l.foldl
        (fun acc qa =>
          if acceptQA min_quality qa then (acc.1 ++ [qa], acc.2)
          else (acc.1, acc.2 ++ [qa]))
        (a, b) =
        (a ++ l.filter (acceptQA min_quality),
          b ++ l.filter (fun qa => ! acceptQA min_quality qa)) by
    simpa using h processed_qa [] []
  intro l
  induction l with
  | nil => intro a b; simp
  | cons qa t ih =>
    intro a b
    rw [List.foldl_cons]
    cases hq : acceptQA min_quality qa with
    | true =>
      rw [if_pos rfl]
      rw [ih (a ++ [qa]) b]
      simp [List.filter_cons, hq]
    | false =>
      rw [if_neg (by simp)]
      rw [ih a (b ++ [qa])]
      simp [List.filter_cons, hq]

end QAGen

namespace QAGen

/-! ### Claim theorems: the chunker -/

/-- C1 (code bug): `chunk_text_with_positions` performs no configuration
validation at all.  On `text = "ab"`, `chunk_size = 1`, `overlap = 1` (an
invalid configuration with `overlap >= chunk_size`) the loop body always
recomputes `start = end - overlap = 0`, so the `while` loop never
terminates: the fuel-indexed model returns `none` at every fuel value, and
in particular no error is signalled before or instead of chunking. -/
theorem chunkFuel_invalid_config_never_terminates :
    (∀ fuel chunkId, chunkFuel (pyStr "ab") 1 1 none fuel 0 chunkId = none) ∧
      chunk_text_with_positions (pyStr "ab") 1 1 none = none := by
  have h : ∀ fuel chunkId, chunkFuel (pyStr "ab") 1 1 none fuel 0 chunkId = none := by
    intro fuel
    induction fuel with
    | zero => intro chunkId; rfl
    | succ fuel ih =>
      intro chunkId
      have hn : nextStart (pyStr "ab") 1 1 0 = 0 := rfl
      rw [chunkFuel, if_pos (by decide : 0 < (pyStr "ab").length), hn, ih]
      rfl
  exact ⟨h, h _ _⟩

/-- C4: for every valid configuration (`chunk_size > 0`,
`0 ≤ overlap < chunk_size`) the chunker terminates; the empty text yields no
chunks; a non-empty text no longer than `chunk_size` yields exactly one
chunk covering `[0, length)`; and for every non-empty text the last chunk
ends at `length(text)`. -/
theorem chunk_text_with_positions_valid_config (text : PyStr) (cs ov : Nat)
    (sd : Option PyStr) (hcs : 0 < cs) (hov : ov < cs) :
    ∃ l, chunk_text_with_positions text cs ov sd = some l ∧
      (text = [] → l = []) ∧
      (text ≠ [] → text.length ≤ cs →
        ∃ c, l = [c] ∧ c.char_start = 0 ∧ c.char_end = text.length) ∧
      (text ≠ [] → ∃ c, l.getLast? = some c ∧ c.char_end = text.length) := by
  obtain ⟨l, hl⟩ :=
    chunkFuel_terminates text cs ov sd hov (text.length + 1) 0 0 (by omega)
  refine ⟨l, hl, ?_, ?_, ?_⟩
  · intro htext
    exact (chunkFuel_shape text cs ov sd _ 0 0 l hl).1.mpr (by simp [htext])
  · intro hne hlen
    have hlen0 : 0 < text.length := List.length_pos.mpr hne
    have hns : nextStart text cs ov 0 = text.length := by
      simp only [nextStart]
      split
      · omega
      · omega
    have hstep : chunkFuel text cs ov sd (text.length + 1) 0 0 =
        some [mkChunk text cs sd 0 0] := by
      rw [chunkFuel, if_pos hlen0, hns,
        chunkFuel_stop text cs ov sd _ _ _ (by omega) (le_refl _)]
      rfl
    rw [hl] at hstep
    obtain rfl := (Option.some.injEq _ _).mp hstep
    refine ⟨mkChunk text cs sd 0 0, rfl, rfl, ?_⟩
    show min (0 + cs) text.length = text.length
    omega
  · intro hne
    have hlen0 : 0 < text.length := List.length_pos.mpr hne
    have hlne : l ≠ [] := by
      intro h0
      have := (chunkFuel_shape text cs ov sd _ 0 0 l hl).1.mp h0
      omega
    have hex : ∃ c, l.getLast? = some c := by
      have hsome := List.getLast?_isSome (l := l)
      rw [Option.isSome_iff_exists] at hsome
      exact hsome.mpr hlne
    obtain ⟨c, hc⟩ := hex
    exact ⟨c, hc, chunkFuel_last text cs ov sd _ _ _ l c hl hc⟩

/-- C4 witness: the hypotheses are satisfiable at a concrete input. -/
theorem chunk_text_with_positions_valid_config_witness :
    chunk_text_with_positions (pyStr "hello\nworld") 4 1 none ≠ none := by
  obtain ⟨l, hl, -, -, -⟩ :=
    chunk_text_with_positions_valid_config (pyStr "hello\nworld") 4 1 none
      (by decide) (by decide)
  rw [hl]
  simp

end QAGen

namespace QAGen

/-- C5: in every chunking under a valid configuration, every non-last chunk
spans exactly `chunk_size` characters, consecutive chunks overlap by exactly
`overlap` (`chunk[i+1].char_start = chunk[i].char_end - overlap`), every
chunk's `text` is the exact slice `text[char_start:char_end]`, and the
specified length-4500 example produces the char ranges `[0,2000)`,
`[1800,3800)`, `[3600,4500)`. -/
theorem chunk_spans_overlap_and_roundtrip :
    (∀ (text : PyStr) (cs ov : Nat) (sd : Option PyStr) (l : List Chunk)
        (i : Nat) (a b : Chunk), 0 < cs → ov < cs →
        chunk_text_with_positions text cs ov sd = some l →
        l.get? i = some a → l.get? (i + 1) = some b →
        a.char_end - a.char_start = cs ∧ b.char_start = a.char_end - ov) ∧
    (∀ (text : PyStr) (cs ov : Nat) (sd : Option PyStr) (l : List Chunk),
        chunk_text_with_positions text cs ov sd = some l →
        ∀ c ∈ l, c.text = pySlice text c.char_start c.char_end) ∧
    (chunk_text_with_positions (List.replicate 4500 97) 2000 200 none).map
        (List.map (fun c => (c.char_start, c.char_end))) =
      some [(0, 2000), (1800, 3800), (3600, 4500)] := by
  refine ⟨?_, ?_, ?_⟩
  · intro text cs ov sd l i a b hcs hov hl ha hb
    have hchain := chunkFuel_chain text cs ov sd _ _ _ _ hl
    obtain ⟨hia, hgeta⟩ := List.get?_eq_some.mp ha
    obtain ⟨hib, hgetb⟩ := List.get?_eq_some.mp hb
    have hR := List.chain'_iff_get.mp hchain i (by omega)
    have hRa : a.char_end < text.length ∧ b.char_start = a.char_end - ov := by
      have e1 : l.get ⟨i, hia⟩ = a := hgeta
      have e2 : l.get ⟨i + 1, hib⟩ = b := hgetb
      rw [← e1, ← e2]
      exact hR
    have hamem : a ∈ l := by
      rw [← hgeta]
      exact List.get_mem l i hia
    have hmem := chunkFuel_mem text cs ov sd _ _ _ l hl a hamem
    refine ⟨?_, hRa.2⟩
    have h1 := hmem.2.1
    have h2 := hRa.1
    omega
  · intro text cs ov sd l hl c hc
    exact (chunkFuel_mem text cs ov sd _ _ _ l hl c hc).2.2.1
  · have hlen : (List.replicate 4500 (97 : Nat)).length = 4500 :=
      List.length_replicate 4500 97
    have hn0 : nextStart (List.replicate 4500 97) 2000 200 0 = 1800 := by
      simp only [nextStart, hlen]
      split <;> omega
    have hn1 : nextStart (List.replicate 4500 97) 2000 200 1800 = 3600 := by
      simp only [nextStart, hlen]
      split <;> omega
    have hn2 : nextStart (List.replicate 4500 97) 2000 200 3600 = 4500 := by
      simp only [nextStart, hlen]
      split <;> omega
    have hrun : chunk_text_with_positions (List.replicate 4500 97) 2000 200 none =
        some [mkChunk (List.replicate 4500 97) 2000 none 0 0,
          mkChunk (List.replicate 4500 97) 2000 none 1800 1,
          mkChunk (List.replicate 4500 97) 2000 none 3600 2] := by
      unfold chunk_text_with_positions
      rw [hlen]
      rw [chunkFuel, if_pos (by rw [hlen]; omega), hn0]
      rw [show (4500 : Nat) = 4499 + 1 from by omega]
      rw [chunkFuel, if_pos (by rw [hlen]; omega), hn1]
      rw [show (4499 : Nat) = 4498 + 1 from by omega]
      rw [chunkFuel, if_pos (by rw [hlen]; omega), hn2]
      rw [show (4498 : Nat) = 4497 + 1 from by omega]
      rw [chunkFuel, if_neg (by rw [hlen]; omega)]
      rfl
    rw [hrun]
    simp only [Option.map_some', List.map_cons, List.map_nil, mkChunk, hlen]
    norm_num [Nat.min_def]

/-- The first chunk of `chunk("abc", 2, 1)`, used as the C5 witness input. -/
def chunkW0 : Chunk :=
  { id := 0, text := [97, 98], char_start := 0, char_end := 2, line_start := 1,
    line_end := 1, preview := [97, 98, 46, 46, 46], source_document := none }

/-- The second chunk of `chunk("abc", 2, 1)`. -/
def chunkW1 : Chunk :=
  { id := 1, text := [98, 99], char_start := 1, char_end := 3, line_start := 1,
    line_end := 1, preview := [98, 99, 46, 46, 46], source_document := none }

/-- C5 witness: the hypotheses are satisfiable at `chunk("abc", 2, 1)`. -/
theorem chunk_spans_overlap_and_roundtrip_witness :
    chunkW0.char_end - chunkW0.char_start = 2 ∧
      chunkW1.char_start = chunkW0.char_end - 1 :=
  chunk_spans_overlap_and_roundtrip.1 (pyStr "abc") 2 1 none [chunkW0, chunkW1]
    0 chunkW0 chunkW1 (by decide) (by decide) (by decide) (by decide) (by decide)

/-- C6: every chunk's `line_start` is 1 plus the number of newlines in the
document prefix `text[0:char_start]` (so the first chunk starts at line 1),
and `line_end` is `line_start` plus the newlines inside the chunk's text. -/
theorem chunk_line_numbers (text : PyStr) (cs ov : Nat) (sd : Option PyStr)
    (l : List Chunk) (h : chunk_text_with_positions text cs ov sd = some l) :
    (∀ c ∈ l, c.line_start = countNl (text.take c.char_start) + 1 ∧
      c.line_end = c.line_start + countNl c.text) ∧
    (∀ c l', l = c :: l' → c.char_start = 0 ∧ c.line_start = 1) := by
  constructor
  · intro c hc
    have hm := chunkFuel_mem text cs ov sd _ _ _ l h c hc
    exact ⟨hm.2.2.2.1, hm.2.2.2.2⟩
  · intro c l' hcl
    have hshape := (chunkFuel_shape text cs ov sd _ 0 0 l h).2 c l' hcl
    rw [hshape.1]
    exact ⟨rfl, rfl⟩

/-- The middle chunk of `chunk("a\nb\ncd", 3, 1)`, used as the C6 witness. -/
def chunkW2 : Chunk :=
  { id := 1, text := [98, 10, 99], char_start := 2, char_end := 5,
    line_start := 2, line_end := 3, preview := [98, 32, 99, 46, 46, 46],
    source_document := none }

/-- C6 witness: the hypotheses are satisfiable at `chunk("a\nb\ncd", 3, 1)`,
whose middle chunk starts after one newline and contains one more. -/
theorem chunk_line_numbers_witness :
    chunkW2.line_start = countNl ((pyStr "a\nb\ncd").take chunkW2.char_start) + 1 ∧
      chunkW2.line_end = chunkW2.line_start + countNl chunkW2.text :=
  (chunk_line_numbers (pyStr "a\nb\ncd") 3 1 none
      [{ id := 0, text := [97, 10, 98], char_start := 0, char_end := 3,
         line_start := 1, line_end := 2, preview := [97, 32, 98, 46, 46, 46],
         source_document := none },
       chunkW2,
       { id := 2, text := [99, 100], char_start := 4, char_end := 6,
         line_start := 3, line_end := 3, preview := [99, 100, 46, 46, 46],
         source_document := none }] (by decide)).1 chunkW2 (by decide)

end QAGen

namespace QAGen

/-! ### Claim theorems: the locator and the generator -/

/-- Reference fields of every emitted pair come from the locator applied to
the pair's own answer and the chunk text (src/generate_qa.py lines 147-151). -/
theorem reference_location_fields (chunk : Chunk) (response : Except Unit PyStr)
    (jsonParse : PyStr → Option (List RawQA)) (p : QAPairOut)
    (hp : p ∈ generate_qa_pairs_with_refs chunk response jsonParse) :
    p.reference.answer_line_in_chunk = find_answer_location p.answer chunk.text ∧
      p.reference.answer_line_in_doc =
        (find_answer_location p.answer chunk.text).map
          (fun loc => chunk.line_start + loc) := by
  cases response with
  | error e => simp [generate_qa_pairs_with_refs] at hp
  | ok content =>
    cases hparse : jsonParse (stripFences content) with
    | none =>
      rw [generate_qa_pairs_with_refs, hparse] at hp
      simp at hp
    | some qas =>
      rw [generate_qa_pairs_with_refs, hparse] at hp
      obtain ⟨qa, hqa, rfl⟩ := List.mem_map.mp hp
      exact ⟨rfl, rfl⟩

/-- C7: the locator probes with the first five whitespace-separated tokens of
the answer, lower-cased and joined by single spaces; it returns the newline
count of `chunk_text[0:p]` for the first occurrence `p` of the probe in the
lower-cased chunk and `none` ("not found") otherwise; `strFind` really is
first-occurrence search; and the caller stores the chunk-relative line, plus
`chunk.line_start + line` as the document line, exactly when the locator
succeeds, and omits both fields otherwise. -/
theorem find_answer_location_follows_spec :
    (∀ answer chunk_text : PyStr,
        find_answer_location answer chunk_text =
          match strFind (chunk_text.map asciiLower) (probeSpec answer) with
          | some p => some (countNl (chunk_text.take p))
          | none => none) ∧
    (∀ hay needle p, strFind hay needle = some p →
        needle <+: hay.drop p ∧ ∀ q < p, ¬ needle <+: hay.drop q) ∧
    (∀ hay needle, strFind hay needle = none → ∀ q, ¬ needle <+: hay.drop q) ∧
    (∀ (chunk : Chunk) (response : Except Unit PyStr)
        (jsonParse : PyStr → Option (List RawQA)) (p : QAPairOut),
        p ∈ generate_qa_pairs_with_refs chunk response jsonParse →
        p.reference.answer_line_in_chunk = find_answer_location p.answer chunk.text ∧
        p.reference.answer_line_in_doc =
          (find_answer_location p.answer chunk.text).map
            (fun loc => chunk.line_start + loc)) := by
  refine ⟨?_, ?_, ?_, ?_⟩
  · intro answer chunk_text
    simp only [find_answer_location]
    rw [probe_eq_probeSpec]
  · intro hay needle p h
    have := strFindAux_spec needle hay 0 p h
    refine ⟨by simpa using this.2.1, ?_⟩
    intro q hq
    have := this.2.2 q (by omega)
    simpa using this
  · intro hay needle h q
    exact strFindAux_none needle hay 0 h q
  · intro chunk response jsonParse p hp
    exact reference_location_fields chunk response jsonParse p hp

/-- C7 witness: the hypotheses are satisfiable at a concrete chunk, response
and parser. -/
theorem find_answer_location_follows_spec_witness :
    (attachReference chunkW2 ⟨pyStr "q", pyStr "b"⟩).reference.answer_line_in_chunk =
        find_answer_location (pyStr "b") chunkW2.text ∧
      (attachReference chunkW2 ⟨pyStr "q", pyStr "b"⟩).reference.answer_line_in_doc =
        (find_answer_location (pyStr "b") chunkW2.text).map
          (fun loc => chunkW2.line_start + loc) :=
  find_answer_location_follows_spec.2.2.2 chunkW2 (Except.ok (pyStr "x"))
    (fun _ => some [⟨pyStr "q", pyStr "b"⟩])
    (attachReference chunkW2 ⟨pyStr "q", pyStr "b"⟩) (by decide)

/-- C10: an all-whitespace (or empty) answer yields the empty probe, which
the empty-substring search finds at offset 0, so the locator returns line 0
rather than "not found", and the emitted reference gets
`answer_line_in_chunk = 0` and `answer_line_in_doc = chunk.line_start`. -/
theorem whitespace_answer_always_located :
    (∀ answer chunk_text : PyStr, (∀ c ∈ answer, isWs c = true) →
        find_answer_location answer chunk_text = some 0) ∧
    (∀ (chunk : Chunk) (response : Except Unit PyStr)
        (jsonParse : PyStr → Option (List RawQA)) (p : QAPairOut),
        p ∈ generate_qa_pairs_with_refs chunk response jsonParse →
        (∀ c ∈ p.answer, isWs c = true) →
        p.reference.answer_line_in_chunk = some 0 ∧
        p.reference.answer_line_in_doc = some chunk.line_start) := by
  have h1 : ∀ answer chunk_text : PyStr, (∀ c ∈ answer, isWs c = true) →
      find_answer_location answer chunk_text = some 0 := by
    intro answer chunk_text hws
    have hsplit : pySplitWs (answer.map asciiLower) = [] := by
      apply pySplitWs_all_ws
      intro c hc
      obtain ⟨d, hd, rfl⟩ := List.mem_map.mp hc
      rw [isWs_asciiLower]
      exact hws d hd
    simp only [find_answer_location, hsplit]
    rw [show List.intercalate [32] (([] : List PyStr).take 5) = ([] : PyStr) from rfl]
    rw [strFind_nil]
    simp [countNl]
  refine ⟨h1, ?_⟩
  intro chunk response jsonParse p hp hws
  have hloc :
      p.reference.answer_line_in_chunk = find_answer_location p.answer chunk.text ∧
      p.reference.answer_line_in_doc =
        (find_answer_location p.answer chunk.text).map
          (fun loc => chunk.line_start + loc) :=
    reference_location_fields chunk response jsonParse p hp
  rw [hloc.1, hloc.2, h1 p.answer chunk.text hws]
  exact ⟨rfl, by simp⟩

/-- C10 witness: the hypotheses are satisfiable at a concrete chunk and an
all-whitespace answer. -/
theorem whitespace_answer_always_located_witness :
    (attachReference chunkW2 ⟨pyStr "q", pyStr " "⟩).reference.answer_line_in_chunk =
        some 0 ∧
      (attachReference chunkW2 ⟨pyStr "q", pyStr " "⟩).reference.answer_line_in_doc =
        some chunkW2.line_start :=
  whitespace_answer_always_located.2 chunkW2 (Except.ok (pyStr "x"))
    (fun _ => some [⟨pyStr "q", pyStr " "⟩])
    (attachReference chunkW2 ⟨pyStr "q", pyStr " "⟩) (by decide) (by decide)

/-- C9: a failed collaborator call (a raised exception, modelled `.error`)
or an unparseable response (after fence stripping) makes
`generate_qa_pairs_with_refs` return `[]` — the function is total, so no
exception propagates — and a chunk whose generation failed contributes
nothing to the batch: the batch result equals the batch with that chunk
removed. -/
theorem generate_qa_failure_isolation :
    (∀ (chunk : Chunk) (jsonParse : PyStr → Option (List RawQA)) (e : Unit),
        generate_qa_pairs_with_refs chunk (.error e) jsonParse = []) ∧
    (∀ (chunk : Chunk) (jsonParse : PyStr → Option (List RawQA)) (content : PyStr),
        jsonParse (stripFences content) = none →
        generate_qa_pairs_with_refs chunk (.ok content) jsonParse = []) ∧
    (∀ (c : Chunk) (r : Except Unit PyStr)
        (jsonParse : PyStr → Option (List RawQA))
        (chunks₁ chunks₂ : List Chunk) (rs₁ rs₂ : List (Except Unit PyStr)),
        chunks₁.length = rs₁.length →
        generate_qa_pairs_with_refs c r jsonParse = [] →
        runBatch (chunks₁ ++ c :: chunks₂) (rs₁ ++ r :: rs₂) jsonParse =
          runBatch (chunks₁ ++ chunks₂) (rs₁ ++ rs₂) jsonParse) := by
  refine ⟨?_, ?_, ?_⟩
  · intro chunk jsonParse e
    rfl
  · intro chunk jsonParse content h
    rw [generate_qa_pairs_with_refs, h]
  · intro c r jsonParse chunks₁ chunks₂ rs₁ rs₂ hlen hgen
    unfold runBatch
    rw [List.zip_append hlen, List.zip_append hlen]
    simp [hgen]

/-- C9 witness: the hypotheses are satisfiable at a concrete chunk, content
and parser. -/
theorem generate_qa_failure_isolation_witness :
    generate_qa_pairs_with_refs chunkW2 (Except.ok (pyStr "oops")) (fun _ => none) = [] :=
  generate_qa_failure_isolation.2.1 chunkW2 (fun _ => none) (pyStr "oops") rfl

end QAGen

namespace QAGen

/-! ### Claim theorems: review processing and the quality filter -/

/-- Threshold levels `quality_levels.get(min_quality, 3)` are at least 1. -/
theorem one_le_minLevel (th : PyStr) : 1 ≤ qualityLevelsGet th 3 := by
  unfold qualityLevelsGet
  repeat' split
  all_goals omega

/-- Unfolding the acceptance condition into a proposition. -/
theorem acceptQA_eq_true_iff {α : Type} (th : PyStr) (qa : ReviewedQA α) :
    acceptQA th qa = true ↔
      (qualityLevelsGet th 3 ≤
          (match effQuality qa.review with
           | none => 0
           | some q => qualityLevelsGet q 0)) ∧
        (effAccuracy qa.review = some (pyStr "Accurate") ∨
          effAccuracy qa.review = some (pyStr "Partially Accurate")) := by
  unfold acceptQA
  simp [Bool.and_eq_true, decide_eq_true_eq, ge_iff_le]

/-- C3 (code bug): a review record whose `id` is 0 (or whose `id` key is
absent, which `int(item.get('id', 0))` also turns into 0) computes
`qa_id = -1`, passes the `qa_id < len(original_qa)` guard, and Python's
negative indexing attaches its review to the **last** original pair instead
of skipping the record; a record with `id` beyond the list (here 5) is
skipped, with statistics still counted. -/
theorem id_zero_record_attaches_to_last_pair :
    process_labelstudio_export (α := Nat)
        [{ id := some 0,
           annotations := [{ result := [], completed_by := none, created_at := none }] }]
        [10, 20] =
      .ok ([{ base := 20, review := initReview, reviewer_id := pyStr "unknown",
              review_date := [] }],
        { completed := 1, accuracy := [none], relevance := [none],
              quality := [none], issues := [] }) ∧
      process_labelstudio_export (α := Nat)
        [{ id := some 5,
           annotations := [{ result := [], completed_by := none, created_at := none }] }]
        [10, 20] =
      .ok ([], { completed := 1, accuracy := [none], relevance := [none],
                 quality := [none], issues := [] }) := by
  constructor
  · rfl
  · rfl

/-- The C2 counterexample item: a present but unrecognized quality label. -/
def unrecordedQualityItem : ReviewedQA Nat :=
  { payload := 0
    review := some { quality := some (some (pyStr "Superb")),
                     accuracy := some (some (pyStr "Accurate")) } }

/-- The same item with the label `'Fair'` substituted for the quality. -/
def unrecordedQualityItemFair : ReviewedQA Nat :=
  { payload := 0
    review := some { quality := some (some (pyStr "Fair")),
                     accuracy := some (some (pyStr "Accurate")) } }

/-- C2 counterexample: at threshold `'Fair'`, an item with the unrecognized
quality label `'Superb'` and accuracy `'Accurate'` is rejected, while the
same item with `'Fair'` substituted is accepted — so an unrecognized quality
label is *not* treated as `'Fair'`. -/
theorem unrecognized_quality_not_treated_as_fair :
    (filter_qa_by_quality [unrecordedQualityItem] (pyStr "Fair")).2 =
        [unrecordedQualityItem] ∧
      (filter_qa_by_quality [unrecordedQualityItemFair] (pyStr "Fair")).1 =
        [unrecordedQualityItemFair] := by
  constructor
  · rfl
  · rfl

/-- The fully-defaulted review labels: `'Fair'` quality and `'Partially
Accurate'` accuracy. -/
def defaultInfo : ReviewInfo :=
  { quality := some (some (pyStr "Fair"))
    accuracy := some (some (pyStr "Partially Accurate")) }

/-- C2 (amended): the `'Fair'` / `'Partially Accurate'` defaults apply
exactly to an *absent* review dict or an *absent* key; a quality value that
is present but `None` or unrecognized scores 0, strictly below every
threshold, so the item is rejected regardless of accuracy; and a present
accuracy value other than `'Accurate'`/`'Partially Accurate'` fails the
accuracy gate, so the item is rejected regardless of quality. -/
theorem quality_accuracy_defaults_amended :
    (∀ (α : Type) (p : α) (th : PyStr),
        acceptQA th ({ payload := p, review := none } : ReviewedQA α) =
          acceptQA th ({ payload := p, review := some defaultInfo } : ReviewedQA α)) ∧
    (∀ (α : Type) (p : α) (th : PyStr) (info : ReviewInfo),
        info.quality = none →
        acceptQA th ({ payload := p, review := some info } : ReviewedQA α) =
          acceptQA th ({ payload := p, review := some { info with quality := some (some (pyStr "Fair")) } } : ReviewedQA α)) ∧
    (∀ (α : Type) (p : α) (th : PyStr) (info : ReviewInfo),
        info.accuracy = none →
        acceptQA th ({ payload := p, review := some info } : ReviewedQA α) =
          acceptQA th ({ payload := p, review := some { info with accuracy := some (some (pyStr "Partially Accurate")) } } : ReviewedQA α)) ∧
    (∀ (α : Type) (p : α) (th : PyStr) (info : ReviewInfo) (v : Option PyStr),
        info.quality = some v →
        (∀ s, v = some s → qualityLevelsGet s 0 = 0) →
        acceptQA th ({ payload := p, review := some info } : ReviewedQA α) = false) ∧
    (∀ (α : Type) (p : α) (th : PyStr) (info : ReviewInfo) (v : Option PyStr),
        info.accuracy = some v →
        v ≠ some (pyStr "Accurate") → v ≠ some (pyStr "Partially Accurate") →
        acceptQA th ({ payload := p, review := some info } : ReviewedQA α) = false) ∧
    (∀ (α : Type) (l : List (ReviewedQA α)) (th : PyStr),
        filter_qa_by_quality l th =
          (l.filter (acceptQA th), l.filter (fun qa => ! acceptQA th qa))) := by
  refine ⟨?_, ?_, ?_, ?_, ?_, ?_⟩
  · intro α p th
    rfl
  · intro α p th info hq
    obtain ⟨q, a⟩ := info
    obtain rfl : q = none := hq
    rfl
  · intro α p th info ha
    obtain ⟨q, a⟩ := info
    obtain rfl : a = none := ha
    cases q with
    | none => rfl
    | some v => rfl
  · intro α p th info v hq hlev
    obtain ⟨q, a⟩ := info
    obtain rfl : q = some v := hq
    have hmin := one_le_minLevel th
    unfold acceptQA effQuality effAccuracy
    cases v with
    | none =>
      simp only []
      rw [Bool.and_eq_false_iff]
      left
      simp
      omega
    | some s =>
      have hz := hlev s rfl
      simp only []
      rw [Bool.and_eq_false_iff]
      left
      simp [hz]
      omega
  · intro α p th info v ha hne1 hne2
    obtain ⟨q, a⟩ := info
    obtain rfl : a = some v := ha
    unfold acceptQA effQuality effAccuracy
    rw [Bool.and_eq_false_iff]
    right
    simp only [Bool.or_eq_false_iff, decide_eq_false_iff_not]
    exact ⟨hne1, hne2⟩
  · intro α l th
    exact filter_qa_by_quality_eq l th

end QAGen

namespace QAGen

/-- The reviewed item `(quality='Good', accuracy='Accurate')`. -/
def goodAccurate : ReviewedQA Nat :=
  { payload := 0
    review := some { quality := some (some (pyStr "Good")),
                     accuracy := some (some (pyStr "Accurate")) } }

/-- The reviewed item `(quality='Fair', accuracy='Accurate')`. -/
def fairAccurate : ReviewedQA Nat :=
  { payload := 0
    review := some { quality := some (some (pyStr "Fair")),
                     accuracy := some (some (pyStr "Accurate")) } }

/-- The reviewed item `(quality='Excellent', accuracy='Inaccurate')`. -/
def excellentInaccurate : ReviewedQA Nat :=
  { payload := 0
    review := some { quality := some (some (pyStr "Excellent")),
                     accuracy := some (some (pyStr "Inaccurate")) } }

/-- C8: for a recognized threshold and recognized labels, an item is routed
to the accepted list iff its quality tier (`Poor=1 < Fair=2 < Good=3 <
Excellent=4`) reaches the threshold's tier and its accuracy is `'Accurate'`
or `'Partially Accurate'`; the filter's two outputs are exactly the
items accepted resp. rejected by that condition; and the three specified
examples behave as stated. -/
theorem filter_accepts_iff_quality_and_accuracy :
    (∀ (α : Type) (p : α) (q a th : PyStr),
        (th = pyStr "Excellent" ∨ th = pyStr "Good" ∨ th = pyStr "Fair") →
        (q = pyStr "Poor" ∨ q = pyStr "Fair" ∨ q = pyStr "Good" ∨
          q = pyStr "Excellent") →
        (acceptQA th ({ payload := p, review := some { quality := some (some q), accuracy := some (some a) } } : ReviewedQA α) = true ↔
          (qualityLevelsGet th 3 ≤ qualityLevelsGet q 0 ∧
            (a = pyStr "Accurate" ∨ a = pyStr "Partially Accurate")))) ∧
    (∀ (α : Type) (l : List (ReviewedQA α)) (th : PyStr),
        filter_qa_by_quality l th =
          (l.filter (acceptQA th), l.filter (fun qa => ! acceptQA th qa))) ∧
    (filter_qa_by_quality [goodAccurate] (pyStr "Good")).1 = [goodAccurate] ∧
    (filter_qa_by_quality [fairAccurate] (pyStr "Good")).2 = [fairAccurate] ∧
    (∀ th : PyStr, acceptQA th excellentInaccurate = false) := by
  refine ⟨?_, ?_, ?_, ?_, ?_⟩
  · intro α p q a th _ _
    rw [acceptQA_eq_true_iff]
    simp only [effQuality, effAccuracy, Option.some.injEq]
  · intro α l th
    exact filter_qa_by_quality_eq l th
  · rfl
  · rfl
  · intro th
    unfold acceptQA effQuality effAccuracy excellentInaccurate
    rw [Bool.and_eq_false_iff]
    right
    simp only [Bool.or_eq_false_iff, decide_eq_false_iff_not]
    exact ⟨by decide, by decide⟩

/-- C8 witness: the hypotheses are satisfiable at the concrete item
`(quality='Good', accuracy='Accurate')` with threshold `'Good'`. -/
theorem filter_accepts_iff_quality_and_accuracy_witness :
    acceptQA (pyStr "Good") ({ payload := 0, review := some { quality := some (some (pyStr "Good")), accuracy := some (some (pyStr "Accurate")) } } : ReviewedQA Nat) = true ↔
      (qualityLevelsGet (pyStr "Good") 3 ≤ qualityLevelsGet (pyStr "Good") 0 ∧
        (pyStr "Accurate" = pyStr "Accurate" ∨
          pyStr "Accurate" = pyStr "Partially Accurate")) :=
  filter_accepts_iff_quality_and_accuracy.1 Nat 0 (pyStr "Good") (pyStr "Accurate")
    (pyStr "Good") (by decide) (by decide)

end QAGen

namespace QAGen

/-- C2 amended witness: the hypotheses are satisfiable; the concrete item
with quality `'Superb'` is rejected at threshold `'Fair'`. -/
theorem quality_accuracy_defaults_amended_witness :
    acceptQA (pyStr "Fair") ({ payload := 0, review := some { quality := some (some (pyStr "Superb")), accuracy := some (some (pyStr "Accurate")) } } : ReviewedQA Nat) = false :=
  quality_accuracy_defaults_amended.2.2.2.1 Nat 0 (pyStr "Fair")
    { quality := some (some (pyStr "Superb"))
      accuracy := some (some (pyStr "Accurate")) }
    (some (pyStr "Superb")) rfl
    (fun s hs => by
      obtain rfl : pyStr "Superb" = s := (Option.some.injEq _ _).mp hs
      decide)

end QAGen
